import Mathlib

/-!
Shallow embedding of the priority-based batching scheduler core of the
inference server (src/core/scheduler_utils.cc) and of the client-side
request timers (src/clients/c++/experimental_api_v2/library/common.h).

Conventions of the embedding:
* machine integers (`size_t`, `uint64_t`, `uint32_t`) are modelled as `Nat`;
  subtraction sites are only exercised where the source guarantees no
  underflow;
* `struct timespec`/`clock_gettime(CLOCK_MONOTONIC)` readings are passed in
  explicitly as a `now_ns : Nat` argument;
* `std::deque` becomes `List` (front = head, `emplace_back` = append);
* `std::map<uint32_t, PolicyQueue>` becomes an association list sorted by
  strictly increasing key; a `std::map` iterator (which is stable under
  insertion) is represented by the key of the element it points at,
  `none` standing for `end()`;
* `Status` return values are modelled by an explicit `Status` structure and
  mutation is modelled by returning the updated state.
-/

namespace Triton

/-- `RequestStatusCode` as used by `Status` in the scheduler source. -/
inductive RequestStatusCode
  | SUCCESS
  | UNAVAILABLE
  deriving DecidableEq, Repr

/-- `Status`: a return code plus a message, as constructed at
`scheduler_utils.cc` line 106. -/
structure Status where
  code : RequestStatusCode
  msg : String
  deriving DecidableEq, Repr

/-- `Status::Success`. -/
def Status.Success : Status := ⟨RequestStatusCode.SUCCESS, ""⟩

/-- `Status::IsOk()`. -/
def Status.IsOk (s : Status) : Bool := s.code == RequestStatusCode.SUCCESS

/-- `ModelQueuePolicy::TimeoutAction` (`REJECT`/`DELAY`), referenced at
`scheduler_utils.cc` line 154. -/
inductive TimeoutAction
  | REJECT
  | DELAY
  deriving DecidableEq, Repr

/-- The queue-policy configuration consumed by a `PolicyQueue`; field names
follow the members copied into `PolicyQueue`
(`max_queue_size_`, `default_timeout_ms_`, `allow_timeout_override_`,
`timeout_action_`). -/
structure ModelQueuePolicy where
  max_queue_size : Nat
  default_timeout_ms : Nat
  allow_timeout_override : Bool
  timeout_action : TimeoutAction
  deriving DecidableEq, Repr

/-- Modelled from the spec: the default-constructed `ModelQueuePolicy` used by
`PriorityQueue::PriorityQueue()` (line 208) and by `queues_[priority_level]`
when the level is absent; the message type is defined outside src/.  Per the
configuration section of the spec, `max_queue_size = 0` (unbounded),
`default_timeout = 0` (no deadline), no override, and the first enum value
`REJECT` for the action. -/
def ModelQueuePolicy.defaultPolicy : ModelQueuePolicy :=
  ⟨0, 0, false, TimeoutAction.REJECT⟩

/-- The slice of `Scheduler::Payload` that the scheduler queues inspect:
`request_provider_->Request()->TimeoutMs()` (line 112),
`request_provider_->Request()->BatchSize()` (line 160), and
`stats_->Timestamp(kQueueStart)` (line 341). -/
structure Payload where
  timeout_ms : Nat
  batch_size : Nat
  queue_start_ns : Nat
  deriving DecidableEq, Repr

/-- One priority level: `PriorityQueue::PolicyQueue`.  `queue_` is the main
FIFO, `timeout_timestamp_ns_` its parallel deque of absolute deadlines
(0 = none), `delayed_queue_` and `rejected_queue_` the two overflow FIFOs. -/
structure PolicyQueue where
  max_queue_size_ : Nat
  default_timeout_ms_ : Nat
  allow_timeout_override_ : Bool
  timeout_action_ : TimeoutAction
  queue_ : List Payload
  timeout_timestamp_ns_ : List Nat
  delayed_queue_ : List Payload
  rejected_queue_ : List Payload
  deriving DecidableEq, Repr

/-- Modelled from the spec: the `PolicyQueue(policy)` constructor lives in the
missing header `scheduler_utils.h`; it copies the policy fields and starts
with all FIFOs empty. -/
def PolicyQueue.ofPolicy (p : ModelQueuePolicy) : PolicyQueue :=
  ⟨p.max_queue_size, p.default_timeout_ms, p.allow_timeout_override,
    p.timeout_action, [], [], [], []⟩

/-- Modelled from the spec: `PolicyQueue::Size()` is declared in the missing
header `scheduler_utils.h`; per the spec a level's size is its count of
admitted (non-rejected) payloads, i.e. `main ++ delayed`. -/
def PolicyQueue.Size (q : PolicyQueue) : Nat :=
  q.queue_.length + q.delayed_queue_.length

/-- Modelled from the spec: `PolicyQueue::Empty()` from the missing header;
a level is empty when it holds no admitted payload. -/
def PolicyQueue.Empty (q : PolicyQueue) : Bool := q.Size == 0

/-- `PolicyQueue::Enqueue` (`scheduler_utils.cc` lines 102-127): reject with
`UNAVAILABLE ("Exceeds maximum queue size")` when bounded and full; otherwise
append the payload to `queue_`, compute the effective timeout (an override may
shorten, never lengthen), and append the absolute deadline (or 0) to
`timeout_timestamp_ns_`. -/
def PolicyQueue.Enqueue (q : PolicyQueue) (now_ns : Nat) (payload : Payload) :
    Status × PolicyQueue :=
  if q.max_queue_size_ ≠ 0 ∧ q.Size ≥ q.max_queue_size_ then
    (⟨RequestStatusCode.UNAVAILABLE, "Exceeds maximum queue size"⟩, q)
  else
    let timeout_ms :=
      if q.allow_timeout_override_ then
        let override_timeout_ms := payload.timeout_ms
        if override_timeout_ms ≠ 0 ∧ override_timeout_ms < q.default_timeout_ms_ then
          override_timeout_ms
        else q.default_timeout_ms_
      else q.default_timeout_ms_
    let deadline := if timeout_ms ≠ 0 then now_ns + timeout_ms * 1000 else 0
    (Status.Success,
      { q with queue_ := q.queue_ ++ [payload],
               timeout_timestamp_ns_ := q.timeout_timestamp_ns_ ++ [deadline] })

/-- `PolicyQueue::Dequeue` (lines 129-142): pop the front of `queue_` (with
its matching deadline) when `queue_` is non-empty, else the front of
`delayed_queue_`.  `none` models the precondition violation (`front` on two
empty deques). -/
def PolicyQueue.Dequeue (q : PolicyQueue) : Option (Payload × PolicyQueue) :=
  match q.queue_ with
  | p :: rest =>
      some (p, { q with queue_ := rest,
                        timeout_timestamp_ns_ := q.timeout_timestamp_ns_.tail })
  | [] =>
      match q.delayed_queue_ with
      | p :: rest => some (p, { q with delayed_queue_ := rest })
      | [] => none

/-- The net effect of the `while` loop of `PolicyQueue::ApplyPolicy` on the
suffix of `queue_`/`timeout_timestamp_ns_` starting at `idx`:
the surviving suffixes, the payloads appended to `delayed_queue_` and to
`rejected_queue_` (in `emplace_back` order), the increments of
`*rejected_count` and `*rejected_batch_size`, and whether the loop returned
from inside (`stopped = true` at the first unexpired entry). -/
structure ApplyPolicyResult where
  main : List Payload
  deadlines : List Nat
  delayed : List Payload
  rejected : List Payload
  rejected_count : Nat
  rejected_batch_size : Nat
  stopped : Bool
  deriving DecidableEq, Repr

/-- The loop of `PolicyQueue::ApplyPolicy` (lines 151-171), recursing over the
suffix of the main queue and its parallel deadline suffix.  The source indexes
`timeout_timestamp_ns_[idx]` only under the class invariant
`|queue_| = |timeout_timestamp_ns_|`; the out-of-sync case (payloads left but
no deadlines) is out-of-bounds access in C++ and is modelled as stopping. -/
def applyPolicyLoop (now_ns : Nat) (act : TimeoutAction) :
    List Payload → List Nat → ApplyPolicyResult
  | [], ts => ⟨[], ts, [], [], 0, 0, false⟩
  | p :: ps, [] => ⟨p :: ps, [], [], [], 0, 0, true⟩
  | p :: ps, t :: ts =>
      if t ≠ 0 ∧ now_ns > t then
        let r := applyPolicyLoop now_ns act ps ts
        match act with
        | TimeoutAction.DELAY => { r with delayed := p :: r.delayed }
        | TimeoutAction.REJECT =>
            { r with rejected := p :: r.rejected,
                     rejected_count := r.rejected_count + 1,
                     rejected_batch_size := r.rejected_batch_size + p.batch_size }
      else ⟨p :: ps, t :: ts, [], [], 0, 0, true⟩

/-- `PolicyQueue::ApplyPolicy` (lines 144-176).  Returns the updated queue,
the increments of `*rejected_count` and `*rejected_batch_size`, and the bool
result: `true` when the loop stopped at an unexpired entry, otherwise
`(idx - queue_.size()) < delayed_queue_.size()` evaluated on the mutated
deques. -/
def PolicyQueue.ApplyPolicy (q : PolicyQueue) (now_ns : Nat) (idx : Nat) :
    PolicyQueue × Nat × Nat × Bool :=
  let r := applyPolicyLoop now_ns q.timeout_action_
      (q.queue_.drop idx) (q.timeout_timestamp_ns_.drop idx)
  let q' : PolicyQueue :=
    { q with queue_ := q.queue_.take idx ++ r.main,
             timeout_timestamp_ns_ := q.timeout_timestamp_ns_.take idx ++ r.deadlines,
             delayed_queue_ := q.delayed_queue_ ++ r.delayed,
             rejected_queue_ := q.rejected_queue_ ++ r.rejected }
  let ret := if r.stopped then true
             else decide ((idx - q'.queue_.length) < q'.delayed_queue_.length)
  (q', r.rejected_count, r.rejected_batch_size, ret)

/-- `PolicyQueue::TimeoutAt` (lines 196-204): the deadline at an index into
the logical concatenation `main ++ delayed`; 0 for the `delayed` segment. -/
def PolicyQueue.TimeoutAt (q : PolicyQueue) (idx : Nat) : Nat :=
  if idx < q.queue_.length then q.timeout_timestamp_ns_.getD idx 0 else 0

/-- `PolicyQueue::At` (lines 186-194): the payload at an index into the
logical concatenation `main ++ delayed` (`none` models out-of-bounds). -/
def PolicyQueue.At (q : PolicyQueue) (idx : Nat) : Option Payload :=
  if idx < q.queue_.length then q.queue_.get? idx
  else q.delayed_queue_.get? (idx - q.queue_.length)

/-- `PriorityQueue::Cursor` (declared in the header, constructed at lines
287-292).  `curr_it_` is a `std::map` iterator; since `std::map` iterators
stay pinned to their element across insertions, it is represented by the key
of the element it points at, `none` standing for `queues_.end()`. -/
structure Cursor where
  curr_level_ : Option Nat
  queue_idx_ : Nat
  pending_batch_closest_timeout_ns_ : Nat
  pending_batch_oldest_enqueue_time_ns_ : Nat
  pending_batch_count_ : Nat
  valid_ : Bool
  deriving DecidableEq, Repr

/-- The multi-level queue `PriorityQueue`: `queues_` is the
`std::map<uint32_t, PolicyQueue>`, modelled as an association list with
strictly increasing keys, plus the running `size_` counter and the pending
cursor. -/
structure PriorityQueue where
  queues_ : List (Nat × PolicyQueue)
  size_ : Nat
  pending_cursor_ : Cursor
  deriving DecidableEq, Repr

/-- Keys of `queues_` strictly increase: the ordering invariant of the
`std::map` representation. -/
def LevelsSorted (l : List (Nat × PolicyQueue)) : Prop :=
  List.Pairwise (fun a b => a.1 < b.1) l

/-- `queues_.find(level)`: lookup in the association list. -/
def lookupLevel : List (Nat × PolicyQueue) → Nat → Option PolicyQueue
  | [], _ => none
  | (k, v) :: rest, level => if level = k then some v else lookupLevel rest level

/-- `queues_[level] = v`: replace the entry at `level`, inserting it at its
sorted position when absent (the effect of `std::map::operator[]` followed by
assignment). -/
def setLevel : List (Nat × PolicyQueue) → Nat → PolicyQueue → List (Nat × PolicyQueue)
  | [], level, v => [(level, v)]
  | (k, w) :: rest, level, v =>
      if level < k then (level, v) :: (k, w) :: rest
      else if level = k then (level, v) :: rest
      else (k, w) :: setLevel rest level v

/-- `queues_[level]` as read by `PriorityQueue::Enqueue`: the existing
`PolicyQueue`, or the default-constructed one `std::map::operator[]` inserts
when the level is absent. -/
def PriorityQueue.levelQueue (pq : PriorityQueue) (level : Nat) : PolicyQueue :=
  (lookupLevel pq.queues_ level).getD
    (PolicyQueue.ofPolicy ModelQueuePolicy.defaultPolicy)

/-- `PriorityQueue::ResetCursor()` (from the header, semantics given by
`Cursor::Cursor(queues_.begin())` at lines 287-292): cursor parked at the
first level, index 0, zeroed aggregates, `valid_ = true`. -/
def PriorityQueue.ResetCursor (pq : PriorityQueue) : PriorityQueue :=
  { pq with pending_cursor_ :=
      ⟨pq.queues_.head?.map Prod.fst, 0, 0, 0, 0, true⟩ }

/-- The `PriorityQueue` constructor (lines 213-231): level `0` alone with the
default policy when `priority_levels == 0`, otherwise levels
`1..=priority_levels`, each taking its policy from the map or falling back to
the default; then `ResetCursor()`. -/
def PriorityQueue.construct (default_queue_policy : ModelQueuePolicy)
    (priority_levels : Nat) (queue_policy_map : List (Nat × ModelQueuePolicy)) :
    PriorityQueue :=
  let queues :=
    if priority_levels = 0 then [(0, PolicyQueue.ofPolicy default_queue_policy)]
    else (List.range priority_levels).map (fun i =>
      (i + 1,
        match queue_policy_map.lookup (i + 1) with
        | none => PolicyQueue.ofPolicy default_queue_policy
        | some pol => PolicyQueue.ofPolicy pol))
  PriorityQueue.ResetCursor ⟨queues, 0, ⟨none, 0, 0, 0, 0, false⟩⟩

/-- `PriorityQueue::Enqueue` (lines 233-247): delegate to
`queues_[priority_level]` (inserting a default-constructed level when absent,
as `operator[]` does); on success increment `size_` and clear `valid_` unless
the new payload's level is strictly greater than the level the cursor points
at.  The source dereferences `curr_it_` only when `valid_` is already set
(short-circuit `&&`); a set `valid_` with `curr_it_ == end()` cannot arise,
and that junk case conservatively invalidates. -/
def PriorityQueue.Enqueue (pq : PriorityQueue) (now_ns : Nat)
    (priority_level : Nat) (payload : Payload) : Status × PriorityQueue :=
  let q := pq.levelQueue priority_level
  let r := q.Enqueue now_ns payload
  let status := r.1
  let q' := r.2
  let queues' := setLevel pq.queues_ priority_level q'
  if status.IsOk then
    (status,
      { pq with queues_ := queues',
                size_ := pq.size_ + 1,
                pending_cursor_ := { pq.pending_cursor_ with valid_ :=
                  pq.pending_cursor_.valid_ &&
                    match pq.pending_cursor_.curr_level_ with
                    | some k => decide (priority_level > k)
                    | none => false } })
  else (status, { pq with queues_ := queues' })

/-- The scan of `PriorityQueue::Dequeue` (lines 254-259) over the ordered
levels: dequeue from the first non-empty `PolicyQueue`, returning the payload
and the updated association list (`none` when every level is empty). -/
def dequeueFirst : List (Nat × PolicyQueue) → Option (Payload × List (Nat × PolicyQueue))
  | [] => none
  | (k, q) :: rest =>
      if q.Empty then
        match dequeueFirst rest with
        | some (p, rest') => some (p, (k, q) :: rest')
        | none => none
      else
        match q.Dequeue with
        | some (p, q') => some (p, (k, q') :: rest)
        | none => none

/-- `PriorityQueue::Dequeue` (lines 249-261): invalidate the cursor, scan the
levels in increasing order, pop from the first non-empty one and decrement
`size_`.  `none` models the `std::out_of_range` throw on an all-empty queue
(the source also clears `valid_` before throwing; the theorems only exercise
the non-empty precondition). -/
def PriorityQueue.Dequeue (pq : PriorityQueue) : Option (Payload × PriorityQueue) :=
  match dequeueFirst pq.queues_ with
  | some (p, queues') =>
      some (p,
        { pq with queues_ := queues',
                  size_ := pq.size_ - 1,
                  pending_cursor_ := { pq.pending_cursor_ with valid_ := false } })
  | none => none

/-- `PriorityQueue::IsCursorValid` (lines 275-285): `valid_` and the current
monotonic time still before the pending batch's closest deadline. -/
def PriorityQueue.IsCursorValid (pq : PriorityQueue) (now_ns : Nat) : Bool :=
  pq.pending_cursor_.valid_ &&
    decide (now_ns < pq.pending_cursor_.pending_batch_closest_timeout_ns_)

/-- The `while` loop of `PriorityQueue::ApplyPolicyAtCursor` (lines 299-312),
recursing over the levels from the cursor's position onward.  Arguments:
remaining levels, current `queue_idx_`, accumulated `rejected_count` and
`rejected_batch_size`.  Returns the updated levels, the key the cursor ends
on (`none` = `end()`), the final `queue_idx_`, and the accumulated counts. -/
def applyPolicyAtCursorLoop (now_ns size pending : Nat) :
    List (Nat × PolicyQueue) → Nat → Nat → Nat →
    List (Nat × PolicyQueue) × Option Nat × Nat × Nat × Nat
  | [], qidx, rc, rbs => ([], none, qidx, rc, rbs)
  | (k, q) :: rest, qidx, rc, rbs =>
      let a := q.ApplyPolicy now_ns qidx
      let q' := a.1
      let ok := a.2.2.2
      let rc' := rc + a.2.1
      let rbs' := rbs + a.2.2.1
      if ¬ ok = true ∧ size > pending + rc' then
        let w := applyPolicyAtCursorLoop now_ns size pending rest 0 rc' rbs'
        ((k, q') :: w.1, w.2.1, w.2.2.1, w.2.2.2.1, w.2.2.2.2)
      else ((k, q') :: rest, some k, qidx, rc', rbs')

/-- `PriorityQueue::ApplyPolicyAtCursor` (lines 294-319): starting at the
cursor's level, apply each level's policy at the cursor index, stepping to the
next level (resetting `queue_idx_` to 0) while the level reports no candidate
and payloads outside the pending batch remain; finally `size_ -=
rejected_count` and the accumulated rejected batch size is returned.  When
`curr_it_ == end()` the loop body never runs (the debug `assert` would fire;
release semantics keep the state unchanged). -/
def PriorityQueue.ApplyPolicyAtCursor (pq : PriorityQueue) (now_ns : Nat) :
    Nat × PriorityQueue :=
  match pq.pending_cursor_.curr_level_ with
  | none => (0, pq)
  | some k =>
      let pre := pq.queues_.takeWhile (fun e => e.1 < k)
      let suf := pq.queues_.dropWhile (fun e => e.1 < k)
      let w := applyPolicyAtCursorLoop now_ns pq.size_
          pq.pending_cursor_.pending_batch_count_ suf
          pq.pending_cursor_.queue_idx_ 0 0
      (w.2.2.2.2,
        { pq with queues_ := pre ++ w.1,
                  size_ := pq.size_ - w.2.2.2.1,
                  pending_cursor_ := { pq.pending_cursor_ with
                    curr_level_ := w.2.1, queue_idx_ := w.2.2.1 } })

/-- The `PolicyQueue` the cursor's `curr_it_` points at
(`pending_cursor_.curr_it_->second`); the `end()` / dangling cases, which the
source never dereferences, read as an empty default queue. -/
def PriorityQueue.cursorQueue (pq : PriorityQueue) : PolicyQueue :=
  match pq.pending_cursor_.curr_level_ with
  | some k => (lookupLevel pq.queues_ k).getD
      (PolicyQueue.ofPolicy ModelQueuePolicy.defaultPolicy)
  | none => PolicyQueue.ofPolicy ModelQueuePolicy.defaultPolicy

/-- `PriorityQueue::AdvanceCursor` (lines 321-352): no-op when everything is
already pending; otherwise fold the candidate's deadline into
`pending_batch_closest_timeout_ns_` (min over non-zero values) and its
`QueueStart` timestamp into `pending_batch_oldest_enqueue_time_ns_`, then
advance `queue_idx_` and `pending_batch_count_`.  The source dereferences the
candidate through `At`; an out-of-range index reads 0 here, unreachable under
the cursor invariant. -/
def PriorityQueue.AdvanceCursor (pq : PriorityQueue) : PriorityQueue :=
  if pq.pending_cursor_.pending_batch_count_ ≥ pq.size_ then pq
  else
    let cur := pq.cursorQueue
    let timeout_ns := cur.TimeoutAt pq.pending_cursor_.queue_idx_
    let closest :=
      if timeout_ns ≠ 0 then
        if pq.pending_cursor_.pending_batch_closest_timeout_ns_ ≠ 0 then
          min pq.pending_cursor_.pending_batch_closest_timeout_ns_ timeout_ns
        else timeout_ns
      else pq.pending_cursor_.pending_batch_closest_timeout_ns_
    let curr_enqueue_time_ns :=
      ((cur.At pq.pending_cursor_.queue_idx_).map Payload.queue_start_ns).getD 0
    let oldest :=
      if pq.pending_cursor_.pending_batch_oldest_enqueue_time_ns_ ≠ 0 then
        min pq.pending_cursor_.pending_batch_oldest_enqueue_time_ns_ curr_enqueue_time_ns
      else curr_enqueue_time_ns
    { pq with pending_cursor_ := { pq.pending_cursor_ with
        pending_batch_closest_timeout_ns_ := closest,
        pending_batch_oldest_enqueue_time_ns_ := oldest,
        queue_idx_ := pq.pending_cursor_.queue_idx_ + 1,
        pending_batch_count_ := pq.pending_cursor_.pending_batch_count_ + 1 } }

/-- One named model input as the shape comparison sees it:
`input.Name()` and `input.Shape()`. -/
structure TensorInput where
  name : String
  shape : List Int
  deriving DecidableEq, Repr

/-- Modelled from the spec: `CompareDims` is defined in model-config helpers
outside src/; per the spec the declared shapes (or shape-tensor contents)
match when they are equal element-wise. -/
def CompareDims (a b : List Int) : Bool := a == b

/-- `PendingBatchShapes`: input name ↦ (declared shape, shape-tensor
contents; empty when the input is not a shape tensor). -/
abbrev PendingBatchShapes := List (String × (List Int × List Int))

/-- The peek callback `Scheduler::StandardShapeTensorPeekFunc` for a fixed
`runner_id` and candidate payload: `none` models a non-OK `Status`, `some`
the contents written to the output vector. -/
abbrev PeekFn := TensorInput → Option (List Int)

/-- `CompareWithPendingShape` (`scheduler_utils.cc` lines 66-100): for each
candidate input present in the pending map, require element-wise equal
declared shapes, and when the pending entry stores shape-tensor contents
require the peek to succeed with equal contents; a failed peek returns
`false` (never an error — the return type is `Bool`, mirroring the
`Status`-free signature of the source). -/
def CompareWithPendingShape (OnPeek : PeekFn)
    (pending_batch_shapes : PendingBatchShapes) :
    List TensorInput → Bool
  | [] => true
  | input :: rest =>
      match pending_batch_shapes.lookup input.name with
      | none => CompareWithPendingShape OnPeek pending_batch_shapes rest
      | some entry =>
          if ¬ CompareDims entry.1 input.shape then false
          else if entry.2.isEmpty then
            CompareWithPendingShape OnPeek pending_batch_shapes rest
          else
            match OnPeek input with
            | none => false
            | some shape =>
                if ¬ CompareDims entry.2 shape then false
                else CompareWithPendingShape OnPeek pending_batch_shapes rest

/-- `RequestTimers::Kind`
(`src/clients/c++/experimental_api_v2/library/common.h` lines 449-473). -/
inductive TimerKind
  | REQUEST_START
  | REQUEST_END
  | SEND_START
  | SEND_END
  | RECV_START
  | RECV_END
  deriving DecidableEq, Repr

/-- `RequestTimers` (common.h lines 446-526): the vector of monotonic
nanosecond timestamps, indexed by kind (0 = unset). -/
structure RequestTimers where
  timestamps_ : TimerKind → Nat

/-- `std::numeric_limits<uint64_t>::max()`. -/
def U64_MAX : Nat := 2 ^ 64 - 1

/-- `RequestTimers::Duration` (common.h lines 509-522): `etime - stime` when
both endpoints are set and ordered, else the saturated maximum. -/
def RequestTimers.Duration (r : RequestTimers) (start fin : TimerKind) : Nat :=
  let stime := r.timestamps_ start
  let etime := r.timestamps_ fin
  if stime = 0 ∨ etime = 0 then U64_MAX
  else if stime > etime then U64_MAX
  else etime - stime

/-- The effective timeout as the spec words it: the request's own timeout
when the override is allowed, non-zero and strictly smaller than the level's
default; the level's default otherwise. -/
def specEffectiveTimeout (q : PolicyQueue) (p : Payload) : Nat :=
  if q.allow_timeout_override_ ∧ p.timeout_ms ≠ 0 ∧
      p.timeout_ms < q.default_timeout_ms_ then
    p.timeout_ms
  else q.default_timeout_ms_

/-- The deadline entry as the spec words it: `now + timeout * 1000` for a
non-zero effective timeout, 0 (no deadline) otherwise. -/
def specDeadlineEntry (now_ns eff : Nat) : Nat :=
  if eff ≠ 0 then now_ns + eff * 1000 else 0

/-- The loop guard of `ApplyPolicy` on a (payload, deadline) pair: the
deadline is non-zero and already passed. -/
def expiredPred (now_ns : Nat) (pt : Payload × Nat) : Bool :=
  decide (pt.2 ≠ 0 ∧ now_ns > pt.2)

/-- Total count of admitted payloads (`main` plus `delayed`) across the
levels of a queue map. -/
def sumAdmitted (l : List (Nat × PolicyQueue)) : Nat :=
  (l.map (fun e => e.2.queue_.length + e.2.delayed_queue_.length)).sum

/-- Total count of payloads sitting in rejected FIFOs across the levels. -/
def sumRejected (l : List (Nat × PolicyQueue)) : Nat :=
  (l.map (fun e => e.2.rejected_queue_.length)).sum

/-- One externally driven scheduler operation, for the conservation
invariant over operation sequences. -/
inductive SchedOp
  | enqueue (now_ns priority_level : Nat) (p : Payload)
  | dequeue
  | applyPolicyAtCursor (now_ns : Nat)

/-- Run state: the priority queue plus running counts of successful
enqueues and dequeues. -/
structure RunState where
  pq : PriorityQueue
  total_enqueued : Nat
  total_dequeued : Nat

/-- Apply one operation.  A dequeue on an all-empty queue throws
`std::out_of_range` in the source (a forbidden precondition violation); it
is modelled as a no-op that counts nothing. -/
def runOp (s : RunState) : SchedOp → RunState
  | SchedOp.enqueue now_ns level p =>
      let r := s.pq.Enqueue now_ns level p
      { pq := r.2,
        total_enqueued :=
          if r.1.IsOk then s.total_enqueued + 1 else s.total_enqueued,
        total_dequeued := s.total_dequeued }
  | SchedOp.dequeue =>
      match s.pq.Dequeue with
      | some pr => { s with pq := pr.2, total_dequeued := s.total_dequeued + 1 }
      | none => s
  | SchedOp.applyPolicyAtCursor now_ns =>
      { s with pq := (s.pq.ApplyPolicyAtCursor now_ns).2 }

/-- Run a sequence of operations from a start state. -/
def runOps (s : RunState) (ops : List SchedOp) : RunState :=
  ops.foldl runOp s

/-- The conservation invariant: levels sorted, the `size_` counter equal to
the structural count of admitted payloads, and every successful enqueue
accounted for by an admitted, dequeued or rejected payload. -/
def GoodState (s : RunState) : Prop :=
  LevelsSorted s.pq.queues_ ∧
  s.pq.size_ = sumAdmitted s.pq.queues_ ∧
  s.total_enqueued =
    sumAdmitted s.pq.queues_ + s.total_dequeued + sumRejected s.pq.queues_

/-- C9: `RequestTimers::Duration(a, b)` returns `timestamps[b] -
timestamps[a]` when both timestamps are non-zero and ordered, and the
saturated maximum `U64_MAX` whenever either endpoint is zero or the start
timestamp exceeds the end timestamp. -/
theorem claim_C9_requestTimers_duration (r : RequestTimers) (a b : TimerKind) :
    (r.timestamps_ a ≠ 0 → r.timestamps_ b ≠ 0 →
      r.timestamps_ a ≤ r.timestamps_ b →
      r.Duration a b = r.timestamps_ b - r.timestamps_ a) ∧
    (r.timestamps_ a = 0 ∨ r.timestamps_ b = 0 ∨
        r.timestamps_ b < r.timestamps_ a →
      r.Duration a b = U64_MAX) := by
  unfold RequestTimers.Duration
  constructor
  · intro ha hb hle
    rw [if_neg, if_neg]
    · exact Nat.not_lt.mpr hle
    · exact not_or.mpr ⟨ha, hb⟩
  · intro h
    rcases h with h | h | h
    · rw [if_pos (Or.inl h)]
    · rw [if_pos (Or.inr h)]
    · by_cases hz : r.timestamps_ a = 0 ∨ r.timestamps_ b = 0
      · rw [if_pos hz]
      · rw [if_neg hz, if_pos h]

/-- Witness for C9 at concrete timer values. -/
theorem claim_C9_requestTimers_duration_witness :
    RequestTimers.Duration
        ⟨fun k => match k with | TimerKind.REQUEST_START => 3 | _ => 10⟩
        TimerKind.REQUEST_START TimerKind.REQUEST_END = 10 - 3 ∧
    RequestTimers.Duration ⟨fun _ => 0⟩
        TimerKind.SEND_START TimerKind.SEND_END = U64_MAX :=
  ⟨(claim_C9_requestTimers_duration
      ⟨fun k => match k with | TimerKind.REQUEST_START => 3 | _ => 10⟩
      TimerKind.REQUEST_START TimerKind.REQUEST_END).1
        (by decide) (by decide) (by decide),
   (claim_C9_requestTimers_duration ⟨fun _ => 0⟩
      TimerKind.SEND_START TimerKind.SEND_END).2 (Or.inl rfl)⟩

/-- C4: `PolicyQueue::Enqueue` returns `UNAVAILABLE ("Exceeds maximum queue
size")` iff `max_queue_size_` is non-zero and the current size is at least
`max_queue_size_`; otherwise it succeeds, appending the payload to `queue_`
and exactly one entry to `timeout_timestamp_ns_`.  Additionally, with
`max_queue_size = 2`, the third of three back-to-back enqueues through a
single-level `PriorityQueue` returns `UNAVAILABLE` (scenario S2). -/
theorem claim_C4_policyQueue_enqueue_capacity :
    (∀ (q : PolicyQueue) (now_ns : Nat) (p : Payload),
      ((q.Enqueue now_ns p).1 =
          ⟨RequestStatusCode.UNAVAILABLE, "Exceeds maximum queue size"⟩ ↔
        q.max_queue_size_ ≠ 0 ∧ q.Size ≥ q.max_queue_size_) ∧
      (¬ (q.max_queue_size_ ≠ 0 ∧ q.Size ≥ q.max_queue_size_) →
        (q.Enqueue now_ns p).1 = Status.Success ∧
        (q.Enqueue now_ns p).2.queue_ = q.queue_ ++ [p] ∧
        ∃ d, (q.Enqueue now_ns p).2.timeout_timestamp_ns_ =
          q.timeout_timestamp_ns_ ++ [d])) ∧
    ((((PriorityQueue.construct ⟨2, 5000, false, TimeoutAction.REJECT⟩ 0
          []).Enqueue 100 0 ⟨0, 1, 100⟩).2.Enqueue 101 0
          ⟨0, 1, 101⟩).2.Enqueue 102 0 ⟨0, 1, 102⟩).1.code =
      RequestStatusCode.UNAVAILABLE := by
  constructor
  · intro q now_ns p
    constructor
    · unfold PolicyQueue.Enqueue
      split
      · simp_all
      · simp_all [Status.Success]
    · intro hroom
      unfold PolicyQueue.Enqueue
      rw [if_neg hroom]
      exact ⟨rfl, rfl, _, rfl⟩
  · decide

/-- Witness for C4's non-full branch at a concrete queue. -/
theorem claim_C4_policyQueue_enqueue_capacity_witness :
    (PolicyQueue.Enqueue ⟨0, 0, false, TimeoutAction.REJECT, [], [], [], []⟩
        5 ⟨0, 1, 0⟩).1 = Status.Success ∧
    (PolicyQueue.Enqueue ⟨0, 0, false, TimeoutAction.REJECT, [], [], [], []⟩
        5 ⟨0, 1, 0⟩).2.queue_ = [] ++ [⟨0, 1, 0⟩] ∧
    ∃ d, (PolicyQueue.Enqueue ⟨0, 0, false, TimeoutAction.REJECT, [], [], [],
        []⟩ 5 ⟨0, 1, 0⟩).2.timeout_timestamp_ns_ = [] ++ [d] :=
  ((claim_C4_policyQueue_enqueue_capacity.1
    ⟨0, 0, false, TimeoutAction.REJECT, [], [], [], []⟩ 5 ⟨0, 1, 0⟩).2
    (by decide))

/-- C5: on every successful `PolicyQueue::Enqueue`, the appended deadline
entry is `now + eff * 1000` for a non-zero effective timeout `eff` and 0
otherwise, where `eff` is the request's own timeout exactly when the override
is allowed, non-zero and strictly smaller than the level's default, and the
level's default otherwise. -/
theorem claim_C5_effective_timeout (q : PolicyQueue) (now_ns : Nat)
    (p : Payload) (hok : (q.Enqueue now_ns p).1.IsOk = true) :
    (q.Enqueue now_ns p).2.timeout_timestamp_ns_ =
      q.timeout_timestamp_ns_ ++
        [specDeadlineEntry now_ns (specEffectiveTimeout q p)] ∧
    (q.Enqueue now_ns p).2.queue_ = q.queue_ ++ [p] := by
  unfold PolicyQueue.Enqueue at hok ⊢
  split at hok
  · simp [Status.IsOk] at hok
  · rename_i hroom
    rw [if_neg hroom]
    refine ⟨?_, rfl⟩
    simp only [specDeadlineEntry, specEffectiveTimeout]
    by_cases hov : q.allow_timeout_override_ = true <;>
      by_cases h0 : p.timeout_ms = 0 <;>
        by_cases hlt : p.timeout_ms < q.default_timeout_ms_ <;>
          simp [hov, h0, hlt]

theorem lookupLevel_mem {l : List (Nat × PolicyQueue)} {k : Nat}
    {v : PolicyQueue} (h : lookupLevel l k = some v) : (k, v) ∈ l := by
  induction l with
  | nil => simp [lookupLevel] at h
  | cons e rest ih =>
      obtain ⟨k', w⟩ := e
      unfold lookupLevel at h
      by_cases hk : k = k'
      · subst hk
        simp at h
        simp [h]
      · rw [if_neg hk] at h
        exact List.mem_cons_of_mem _ (ih h)

theorem setLevel_lookup_self {l : List (Nat × PolicyQueue)} {k : Nat}
    {v : PolicyQueue} (hs : LevelsSorted l) (h : lookupLevel l k = some v) :
    setLevel l k v = l := by
  induction l with
  | nil => simp [lookupLevel] at h
  | cons e rest ih =>
      obtain ⟨k', w⟩ := e
      unfold lookupLevel at h
      unfold setLevel
      rcases List.pairwise_cons.mp hs with ⟨hlt, hrest⟩
      by_cases hk : k = k'
      · subst hk
        simp at h
        simp [h]
      · rw [if_neg hk] at h
        have hkgt : k' < k := hlt (k, v) (lookupLevel_mem h)
        rw [if_neg (by omega), if_neg hk, ih hrest h]

theorem policyQueue_enqueue_fail_eq {q : PolicyQueue} {now_ns : Nat}
    {p : Payload} (h : (q.Enqueue now_ns p).1.IsOk = false) :
    (q.Enqueue now_ns p).2 = q := by
  unfold PolicyQueue.Enqueue at h ⊢
  split at h
  · split
    · rfl
    · simp_all
  · simp [Status.IsOk, Status.Success] at h

theorem defaultPolicy_enqueue_ok (now_ns : Nat) (p : Payload) :
    ((PolicyQueue.ofPolicy ModelQueuePolicy.defaultPolicy).Enqueue
      now_ns p).1.IsOk = true := by
  simp [PolicyQueue.Enqueue, PolicyQueue.ofPolicy, ModelQueuePolicy.defaultPolicy,
    Status.IsOk, Status.Success]

theorem priorityQueue_enqueue_fst (pq : PriorityQueue) (now_ns L : Nat)
    (p : Payload) :
    (pq.Enqueue now_ns L p).1 = ((pq.levelQueue L).Enqueue now_ns p).1 := by
  simp only [PriorityQueue.Enqueue]
  by_cases h : ((pq.levelQueue L).Enqueue now_ns p).1.IsOk = true
  · rw [if_pos h]
  · rw [if_neg h]

theorem priorityQueue_enqueue_snd_ok (pq : PriorityQueue) (now_ns L : Nat)
    (p : Payload) (h : ((pq.levelQueue L).Enqueue now_ns p).1.IsOk = true) :
    (pq.Enqueue now_ns L p).2 =
      { pq with
        queues_ := setLevel pq.queues_ L ((pq.levelQueue L).Enqueue now_ns p).2,
        size_ := pq.size_ + 1,
        pending_cursor_ := { pq.pending_cursor_ with valid_ :=
          pq.pending_cursor_.valid_ &&
            match pq.pending_cursor_.curr_level_ with
            | some k => decide (L > k)
            | none => false } } := by
  simp only [PriorityQueue.Enqueue]
  rw [if_pos h]

theorem priorityQueue_enqueue_snd_fail (pq : PriorityQueue) (now_ns L : Nat)
    (p : Payload) (h : ((pq.levelQueue L).Enqueue now_ns p).1.IsOk = false) :
    (pq.Enqueue now_ns L p).2 =
      { pq with
        queues_ := setLevel pq.queues_ L ((pq.levelQueue L).Enqueue now_ns p).2 } := by
  simp only [PriorityQueue.Enqueue]
  rw [if_neg (by simp [h])]

/-- C10: when `PolicyQueue::Enqueue` fails (queue full), the policy queue is
left untouched, and the enclosing `PriorityQueue::Enqueue` leaves the whole
priority queue — levels, `size_`, and every cursor field — unchanged. -/
theorem claim_C10_enqueue_failure_atomic (pq : PriorityQueue)
    (now_ns priority_level : Nat) (p : Payload)
    (hs : LevelsSorted pq.queues_)
    (hfail : (pq.Enqueue now_ns priority_level p).1.IsOk = false) :
    (pq.Enqueue now_ns priority_level p).2 = pq ∧
    ∀ (q : PolicyQueue) (n : Nat) (pl : Payload),
      (q.Enqueue n pl).1.IsOk = false → (q.Enqueue n pl).2 = q := by
  refine ⟨?_, fun q n pl h => policyQueue_enqueue_fail_eq h⟩
  rw [priorityQueue_enqueue_fst] at hfail
  rw [priorityQueue_enqueue_snd_fail pq now_ns priority_level p hfail]
  cases hlk : lookupLevel pq.queues_ priority_level with
  | none =>
      have : pq.levelQueue priority_level =
          PolicyQueue.ofPolicy ModelQueuePolicy.defaultPolicy := by
        simp [PriorityQueue.levelQueue, hlk]
      rw [this] at hfail
      rw [defaultPolicy_enqueue_ok now_ns p] at hfail
      cases hfail
  | some q0 =>
      have hlq : pq.levelQueue priority_level = q0 := by
        simp [PriorityQueue.levelQueue, hlk]
      rw [hlq] at hfail ⊢
      rw [policyQueue_enqueue_fail_eq hfail, setLevel_lookup_self hs hlk]

/-- Witness for C10 at a concrete full single-level queue. -/
theorem claim_C10_enqueue_failure_atomic_witness :
    ((PriorityQueue.mk
        [(0, ⟨1, 0, false, TimeoutAction.REJECT, [⟨0, 1, 0⟩], [0], [], []⟩)]
        1 ⟨some 0, 0, 0, 0, 0, true⟩).Enqueue 7 0 ⟨0, 1, 0⟩).2 =
      PriorityQueue.mk
        [(0, ⟨1, 0, false, TimeoutAction.REJECT, [⟨0, 1, 0⟩], [0], [], []⟩)]
        1 ⟨some 0, 0, 0, 0, 0, true⟩ ∧
    ∀ (q : PolicyQueue) (n : Nat) (pl : Payload),
      (q.Enqueue n pl).1.IsOk = false → (q.Enqueue n pl).2 = q :=
  claim_C10_enqueue_failure_atomic
    (PriorityQueue.mk
      [(0, ⟨1, 0, false, TimeoutAction.REJECT, [⟨0, 1, 0⟩], [0], [], []⟩)]
      1 ⟨some 0, 0, 0, 0, 0, true⟩) 7 0 ⟨0, 1, 0⟩
    (by simp [LevelsSorted]) (by decide)

/-- C1: a successful `PriorityQueue::Enqueue` at level `L` while the cursor
is valid clears `valid_` when `L` is at or before the level the cursor points
at, and keeps `valid_` set when `L` is strictly greater. -/
theorem claim_C1_enqueue_cursor_invalidation (pq : PriorityQueue)
    (now_ns L : Nat) (p : Payload) (k : Nat)
    (hvalid : pq.pending_cursor_.valid_ = true)
    (hcur : pq.pending_cursor_.curr_level_ = some k)
    (hok : (pq.Enqueue now_ns L p).1.IsOk = true) :
    (L ≤ k → (pq.Enqueue now_ns L p).2.pending_cursor_.valid_ = false) ∧
    (k < L → (pq.Enqueue now_ns L p).2.pending_cursor_.valid_ = true) := by
  rw [priorityQueue_enqueue_fst] at hok
  rw [priorityQueue_enqueue_snd_ok pq now_ns L p hok]
  simp only [hcur, hvalid, Bool.true_and]
  constructor
  · intro hle
    simp [Nat.not_lt.mpr hle]
  · intro hlt
    simp [hlt]

/-- Witness for C1 on a concrete two-level queue: enqueue at the cursor's
level invalidates, enqueue strictly after it keeps the cursor valid. -/
theorem claim_C1_enqueue_cursor_invalidation_witness :
    (1 ≤ 1 →
      ((PriorityQueue.construct ⟨0, 0, false, TimeoutAction.REJECT⟩ 2
        []).Enqueue 0 1 ⟨0, 1, 0⟩).2.pending_cursor_.valid_ = false) ∧
    (1 < 1 →
      ((PriorityQueue.construct ⟨0, 0, false, TimeoutAction.REJECT⟩ 2
        []).Enqueue 0 1 ⟨0, 1, 0⟩).2.pending_cursor_.valid_ = true) :=
  claim_C1_enqueue_cursor_invalidation
    (PriorityQueue.construct ⟨0, 0, false, TimeoutAction.REJECT⟩ 2 [])
    0 1 ⟨0, 1, 0⟩ 1 (by decide) (by decide) (by decide)

/-- C2: `PriorityQueue::IsCursorValid` is true iff the `valid_` flag is set
and the monotonic now is strictly below the pending batch's closest deadline;
that deadline field starts at 0 on `ResetCursor` and stays 0 across
`AdvanceCursor` whenever the admitted candidate carries no deadline, so it is
0 when no admitted payload carries a deadline. -/
theorem claim_C2_is_cursor_valid :
    (∀ (pq : PriorityQueue) (now_ns : Nat),
      pq.IsCursorValid now_ns = true ↔
        pq.pending_cursor_.valid_ = true ∧
        now_ns < pq.pending_cursor_.pending_batch_closest_timeout_ns_) ∧
    (∀ pq : PriorityQueue,
      pq.ResetCursor.pending_cursor_.pending_batch_closest_timeout_ns_ = 0) ∧
    (∀ pq : PriorityQueue,
      pq.pending_cursor_.pending_batch_closest_timeout_ns_ = 0 →
      pq.cursorQueue.TimeoutAt pq.pending_cursor_.queue_idx_ = 0 →
      pq.AdvanceCursor.pending_cursor_.pending_batch_closest_timeout_ns_ = 0) := by
  refine ⟨?_, fun pq => rfl, ?_⟩
  · intro pq now_ns
    simp [PriorityQueue.IsCursorValid]
  · intro pq h0 hto
    unfold PriorityQueue.AdvanceCursor
    split
    · exact h0
    · simp [hto, h0]

/-- Witness for C2's `AdvanceCursor` conjunct on a concrete queue. -/
theorem claim_C2_is_cursor_valid_witness :
    ((PriorityQueue.construct ⟨0, 0, false, TimeoutAction.REJECT⟩ 0
      []).AdvanceCursor).pending_cursor_.pending_batch_closest_timeout_ns_ = 0 :=
  claim_C2_is_cursor_valid.2.2
    (PriorityQueue.construct ⟨0, 0, false, TimeoutAction.REJECT⟩ 0 [])
    (by decide) (by decide)

/-- Witness for C5 at a concrete queue exercising the narrowing override. -/
theorem claim_C5_effective_timeout_witness :
    (PolicyQueue.Enqueue ⟨0, 10000, true, TimeoutAction.REJECT, [], [], [],
        []⟩ 1000 ⟨3000, 1, 0⟩).2.timeout_timestamp_ns_ =
      [] ++ [specDeadlineEntry 1000 (specEffectiveTimeout
        ⟨0, 10000, true, TimeoutAction.REJECT, [], [], [], []⟩ ⟨3000, 1, 0⟩)] ∧
    (PolicyQueue.Enqueue ⟨0, 10000, true, TimeoutAction.REJECT, [], [], [],
        []⟩ 1000 ⟨3000, 1, 0⟩).2.queue_ = [] ++ [⟨3000, 1, 0⟩] :=
  claim_C5_effective_timeout
    ⟨0, 10000, true, TimeoutAction.REJECT, [], [], [], []⟩ 1000 ⟨3000, 1, 0⟩
    (by decide)

theorem compareWithPendingShape_true_iff (OnPeek : PeekFn)
    (pending : PendingBatchShapes) (inputs : List TensorInput) :
    CompareWithPendingShape OnPeek pending inputs = true ↔
      ∀ input ∈ inputs, ∀ entry, pending.lookup input.name = some entry →
        CompareDims entry.1 input.shape = true ∧
        (entry.2 ≠ [] → ∃ s, OnPeek input = some s ∧
          CompareDims entry.2 s = true) := by
  induction inputs with
  | nil => simp [CompareWithPendingShape]
  | cons i rest ih =>
      unfold CompareWithPendingShape
      cases hlk : pending.lookup i.name with
      | none =>
          rw [ih]
          constructor
          · intro h input hmem entry hent
            rcases List.mem_cons.mp hmem with rfl | hmem'
            · rw [hlk] at hent
              cases hent
            · exact h input hmem' entry hent
          · intro h input hmem entry hent
            exact h input (List.mem_cons_of_mem _ hmem) entry hent
      | some entry =>
          dsimp only
          by_cases hdims : CompareDims entry.1 i.shape = true
          · rw [if_neg (by simp [hdims])]
            by_cases hempty : entry.2.isEmpty = true
            · have h2 : entry.2 = [] := List.isEmpty_iff.mp hempty
              rw [if_pos hempty, ih]
              constructor
              · intro h input hmem entry' hent
                rcases List.mem_cons.mp hmem with rfl | hmem'
                · rw [hlk] at hent
                  injection hent with he
                  subst he
                  exact ⟨hdims, fun hne => absurd h2 hne⟩
                · exact h input hmem' entry' hent
              · intro h input hmem entry' hent
                exact h input (List.mem_cons_of_mem _ hmem) entry' hent
            · rw [if_neg hempty]
              have hne2 : entry.2 ≠ [] := by
                intro hnil
                exact hempty (by simp [hnil])
              cases hpeek : OnPeek i with
              | none =>
                  constructor
                  · intro h
                    cases h
                  · intro h
                    obtain ⟨_, hcont⟩ := h i (List.mem_cons_self i rest) entry hlk
                    obtain ⟨s, hs, _⟩ := hcont hne2
                    rw [hpeek] at hs
                    cases hs
              | some s =>
                  dsimp only
                  by_cases hc2 : CompareDims entry.2 s = true
                  · rw [if_neg (by simp [hc2]), ih]
                    constructor
                    · intro h input hmem entry' hent
                      rcases List.mem_cons.mp hmem with rfl | hmem'
                      · rw [hlk] at hent
                        injection hent with he
                        subst he
                        exact ⟨hdims, fun _ => ⟨s, hpeek, hc2⟩⟩
                      · exact h input hmem' entry' hent
                    · intro h input hmem entry' hent
                      exact h input (List.mem_cons_of_mem _ hmem) entry' hent
                  · rw [if_pos (by simp [hc2])]
                    constructor
                    · intro h
                      cases h
                    · intro h
                      obtain ⟨_, hcont⟩ := h i (List.mem_cons_self i rest) entry hlk
                      obtain ⟨s', hs', hcd'⟩ := hcont hne2
                      rw [hpeek] at hs'
                      injection hs' with he
                      subst he
                      exact absurd hcd' hc2
          · rw [if_pos (by simp [hdims])]
            constructor
            · intro h
              cases h
            · intro h
              obtain ⟨hcd, _⟩ := h i (List.mem_cons_self i rest) entry hlk
              exact absurd hcd hdims

/-- C7: `CompareWithPendingShape` returns true iff every candidate input that
appears in the pending shape map has an element-wise equal declared shape
and, when the stored entry carries non-empty shape-tensor contents, the peek
succeeds and returns contents equal to the stored ones; a failed peek makes
the function return false (the source's `Bool` return never surfaces a
`Status` error to the caller). -/
theorem claim_C7_compare_with_pending_shape (OnPeek : PeekFn)
    (pending : PendingBatchShapes) (inputs : List TensorInput) :
    (CompareWithPendingShape OnPeek pending inputs = true ↔
      ∀ input ∈ inputs, ∀ entry, pending.lookup input.name = some entry →
        CompareDims entry.1 input.shape = true ∧
        (entry.2 ≠ [] → ∃ s, OnPeek input = some s ∧
          CompareDims entry.2 s = true)) ∧
    (∀ input ∈ inputs, ∀ entry, pending.lookup input.name = some entry →
      entry.2 ≠ [] → OnPeek input = none →
      CompareWithPendingShape OnPeek pending inputs = false) := by
  refine ⟨compareWithPendingShape_true_iff OnPeek pending inputs, ?_⟩
  intro input hmem entry hent hne hpeek
  cases hcmp : CompareWithPendingShape OnPeek pending inputs with
  | false => rfl
  | true =>
      obtain ⟨_, hcont⟩ :=
        (compareWithPendingShape_true_iff OnPeek pending inputs).mp hcmp
          input hmem entry hent
      obtain ⟨s, hs, _⟩ := hcont hne
      rw [hpeek] at hs
      cases hs

/-- Witness for C7: a concrete candidate whose shape-tensor peek fails is
compared as "not equal" (scenario S5). -/
theorem claim_C7_compare_with_pending_shape_witness :
    CompareWithPendingShape (fun _ => none)
      [("X", ([1, 4], [2]))] [⟨"X", [1, 4]⟩] = false :=
  (claim_C7_compare_with_pending_shape (fun _ => none)
      [("X", ([1, 4], [2]))] [⟨"X", [1, 4]⟩]).2
    ⟨"X", [1, 4]⟩ (List.mem_cons_self _ _) ([1, 4], [2]) rfl (by decide) rfl

theorem dequeueFirst_split (pre post : List (Nat × PolicyQueue)) (k : Nat)
    (q : PolicyQueue) (hpre : ∀ e ∈ pre, e.2.Empty = true)
    (hq : q.Empty = false) :
    dequeueFirst (pre ++ (k, q) :: post) =
      (q.Dequeue).map (fun pr => (pr.1, pre ++ (k, pr.2) :: post)) := by
  induction pre with
  | nil =>
      simp only [List.nil_append]
      unfold dequeueFirst
      rw [if_neg (by simp [hq])]
      cases hdq : q.Dequeue with
      | none => simp
      | some pr =>
          obtain ⟨p, q'⟩ := pr
          simp
  | cons e pre' ih =>
      obtain ⟨ke, qe⟩ := e
      simp only [List.cons_append]
      unfold dequeueFirst
      rw [if_pos (hpre (ke, qe) (List.mem_cons_self _ _))]
      rw [ih (fun e he => hpre e (List.mem_cons_of_mem _ he))]
      cases hdq : q.Dequeue with
      | none => simp
      | some pr =>
          obtain ⟨p, q'⟩ := pr
          simp

/-- C6: on a `PriorityQueue` whose first non-empty level (in increasing level
order) is `(k, q)`, `Dequeue` invalidates the cursor, decrements `size_` by
one, and pops the front of `q`'s main FIFO (with its matching deadline entry)
when main is non-empty, else the front of its delayed FIFO. -/
theorem claim_C6_priority_dequeue (pq : PriorityQueue)
    (pre post : List (Nat × PolicyQueue)) (k : Nat) (q : PolicyQueue)
    (hsplit : pq.queues_ = pre ++ (k, q) :: post)
    (hpre : ∀ e ∈ pre, e.2.Empty = true)
    (hq : q.Empty = false) :
    ∃ p pq', pq.Dequeue = some (p, pq') ∧
      pq'.pending_cursor_.valid_ = false ∧
      pq'.size_ = pq.size_ - 1 ∧
      ((∃ rest, q.queue_ = p :: rest ∧
          pq'.queues_ = pre ++ (k, { q with queue_ := rest,
                                            timeout_timestamp_ns_ :=
                                              q.timeout_timestamp_ns_.tail }) :: post) ∨
       (q.queue_ = [] ∧ ∃ rest, q.delayed_queue_ = p :: rest ∧
          pq'.queues_ = pre ++ (k, { q with delayed_queue_ := rest }) :: post)) := by
  unfold PriorityQueue.Dequeue
  rw [hsplit, dequeueFirst_split pre post k q hpre hq]
  cases hmain : q.queue_ with
  | cons p rest =>
      have hdq : q.Dequeue = some (p, { q with queue_ := rest,
                                               timeout_timestamp_ns_ :=
                                                 q.timeout_timestamp_ns_.tail }) := by
        unfold PolicyQueue.Dequeue
        rw [hmain]
      rw [hdq]
      refine ⟨p, _, rfl, rfl, rfl, Or.inl ⟨rest, rfl, ?_⟩⟩
      simp
  | nil =>
      cases hdel : q.delayed_queue_ with
      | nil =>
          exfalso
          have : q.Empty = true := by
            simp [PolicyQueue.Empty, PolicyQueue.Size, hmain, hdel]
          rw [this] at hq
          cases hq
      | cons p rest =>
          have hdq : q.Dequeue = some (p, { q with delayed_queue_ := rest }) := by
            unfold PolicyQueue.Dequeue
            rw [hmain, hdel]
          rw [hdq]
          refine ⟨p, _, rfl, rfl, rfl, Or.inr ⟨rfl, rest, rfl, ?_⟩⟩
          simp [hmain]

/-- Witness for C6: a two-level queue whose level 1 is empty and level 2
holds one payload dequeues from level 2. -/
theorem claim_C6_priority_dequeue_witness :
    ∃ p pq', (PriorityQueue.mk
        [(1, ⟨0, 0, false, TimeoutAction.REJECT, [], [], [], []⟩),
         (2, ⟨0, 0, false, TimeoutAction.REJECT, [⟨0, 1, 9⟩], [0], [], []⟩)]
        1 ⟨some 1, 0, 0, 0, 0, true⟩).Dequeue = some (p, pq') ∧
      pq'.pending_cursor_.valid_ = false ∧
      pq'.size_ = (1 : Nat) - 1 ∧
      ((∃ rest, ([⟨0, 1, 9⟩] : List Payload) = p :: rest ∧
          pq'.queues_ = [(1, ⟨0, 0, false, TimeoutAction.REJECT, [], [], [], []⟩)] ++
            [(2, ⟨0, 0, false, TimeoutAction.REJECT, rest, ([0] : List Nat).tail, [], []⟩)]) ∨
       (([⟨0, 1, 9⟩] : List Payload) = [] ∧ ∃ rest, ([] : List Payload) = p :: rest ∧
          pq'.queues_ = [(1, ⟨0, 0, false, TimeoutAction.REJECT, [], [], [], []⟩)] ++
            [(2, ⟨0, 0, false, TimeoutAction.REJECT, [⟨0, 1, 9⟩], [0], rest, []⟩)])) := by
  have h := claim_C6_priority_dequeue
    (PriorityQueue.mk
      [(1, ⟨0, 0, false, TimeoutAction.REJECT, [], [], [], []⟩),
       (2, ⟨0, 0, false, TimeoutAction.REJECT, [⟨0, 1, 9⟩], [0], [], []⟩)]
      1 ⟨some 1, 0, 0, 0, 0, true⟩)
    [(1, ⟨0, 0, false, TimeoutAction.REJECT, [], [], [], []⟩)] []
    2 ⟨0, 0, false, TimeoutAction.REJECT, [⟨0, 1, 9⟩], [0], [], []⟩
    rfl (by decide) (by decide)
  exact h

theorem head?_dropWhile_not {α : Type} (p : α → Bool) (l : List α) :
    ∀ x, (l.dropWhile p).head? = some x → p x = false := by
  induction l with
  | nil =>
      intro x h
      simp [List.dropWhile] at h
  | cons a l ih =>
      intro x h
      by_cases hpa : p a = true
      · rw [List.dropWhile_cons_of_pos hpa] at h
        exact ih x h
      · rw [List.dropWhile_cons_of_neg hpa] at h
        simp at h
        subst h
        exact Bool.eq_false_iff.mpr hpa

theorem applyPolicyLoop_eq (now_ns : Nat) (act : TimeoutAction)
    (ps : List Payload) :
    ∀ ts : List Nat, ps.length = ts.length →
    applyPolicyLoop now_ns act ps ts =
      { main := ((ps.zip ts).dropWhile (expiredPred now_ns)).map Prod.fst,
        deadlines := ((ps.zip ts).dropWhile (expiredPred now_ns)).map Prod.snd,
        delayed := if act = TimeoutAction.DELAY then
            ((ps.zip ts).takeWhile (expiredPred now_ns)).map Prod.fst else [],
        rejected := if act = TimeoutAction.REJECT then
            ((ps.zip ts).takeWhile (expiredPred now_ns)).map Prod.fst else [],
        rejected_count := if act = TimeoutAction.REJECT then
            ((ps.zip ts).takeWhile (expiredPred now_ns)).length else 0,
        rejected_batch_size := if act = TimeoutAction.REJECT then
            (((ps.zip ts).takeWhile (expiredPred now_ns)).map
              (fun pt => pt.1.batch_size)).sum else 0,
        stopped := !((ps.zip ts).dropWhile (expiredPred now_ns)).isEmpty } := by
  induction ps with
  | nil =>
      intro ts h
      have hts : ts = [] := List.eq_nil_of_length_eq_zero h.symm
      subst hts
      cases act <;> simp [applyPolicyLoop]
  | cons p ps' ih =>
      intro ts h
      cases ts with
      | nil => simp at h
      | cons t ts' =>
          have hlen : ps'.length = ts'.length := by simpa using h
          have hzip : ((p :: ps').zip (t :: ts')) = (p, t) :: ps'.zip ts' := rfl
          unfold applyPolicyLoop
          by_cases hexp : t ≠ 0 ∧ now_ns > t
          · have hpt : expiredPred now_ns (p, t) = true := by
              simp [expiredPred, hexp.1, hexp.2]
            rw [if_pos hexp, ih ts' hlen]
            cases act <;>
              simp [hzip, List.takeWhile_cons_of_pos hpt,
                List.dropWhile_cons_of_pos hpt, Nat.add_comm]
          · have hpt : ¬ expiredPred now_ns (p, t) = true := by
              simp [expiredPred]
              intro h0
              exact Nat.not_lt.mp (fun hgt => hexp ⟨h0, hgt⟩)
            rw [if_neg hexp]
            cases act <;>
              simp [hzip, List.takeWhile_cons_of_neg hpt,
                List.dropWhile_cons_of_neg hpt,
                List.map_fst_zip ps' ts' hlen.le,
                List.map_snd_zip ps' ts' hlen.ge]

/-- C3: `PolicyQueue::ApplyPolicy(idx, ...)` removes from `main` (and from
`deadline_ns`) exactly the maximal run of entries at positions `idx, idx+1,
...` whose deadline is non-zero and already passed, appending them in order
to `delayed` under DELAY or to `rejected` under REJECT (counting them in
`rejected_count` and summing their batch sizes into `rejected_batch_size`);
the walk stops at the first entry whose deadline has not passed, returning
true, and when `main` is exhausted it returns whether `idx - |main|` is a
valid index into `delayed`. -/
theorem claim_C3_policy_apply_policy (q : PolicyQueue) (now_ns idx : Nat)
    (hlen : q.queue_.length = q.timeout_timestamp_ns_.length) :
    (q.ApplyPolicy now_ns idx).1.queue_ =
        q.queue_.take idx ++
          (((q.queue_.drop idx).zip
            (q.timeout_timestamp_ns_.drop idx)).dropWhile
              (expiredPred now_ns)).map Prod.fst ∧
    (q.ApplyPolicy now_ns idx).1.timeout_timestamp_ns_ =
        q.timeout_timestamp_ns_.take idx ++
          (((q.queue_.drop idx).zip
            (q.timeout_timestamp_ns_.drop idx)).dropWhile
              (expiredPred now_ns)).map Prod.snd ∧
    (q.ApplyPolicy now_ns idx).1.delayed_queue_ =
        q.delayed_queue_ ++
          (if q.timeout_action_ = TimeoutAction.DELAY then
            (((q.queue_.drop idx).zip
              (q.timeout_timestamp_ns_.drop idx)).takeWhile
                (expiredPred now_ns)).map Prod.fst else []) ∧
    (q.ApplyPolicy now_ns idx).1.rejected_queue_ =
        q.rejected_queue_ ++
          (if q.timeout_action_ = TimeoutAction.REJECT then
            (((q.queue_.drop idx).zip
              (q.timeout_timestamp_ns_.drop idx)).takeWhile
                (expiredPred now_ns)).map Prod.fst else []) ∧
    (q.ApplyPolicy now_ns idx).2.1 =
        (if q.timeout_action_ = TimeoutAction.REJECT then
          (((q.queue_.drop idx).zip
            (q.timeout_timestamp_ns_.drop idx)).takeWhile
              (expiredPred now_ns)).length else 0) ∧
    (q.ApplyPolicy now_ns idx).2.2.1 =
        (if q.timeout_action_ = TimeoutAction.REJECT then
          ((((q.queue_.drop idx).zip
            (q.timeout_timestamp_ns_.drop idx)).takeWhile
              (expiredPred now_ns)).map (fun pt => pt.1.batch_size)).sum
         else 0) ∧
    (∀ pt ∈ ((q.queue_.drop idx).zip
        (q.timeout_timestamp_ns_.drop idx)).takeWhile (expiredPred now_ns),
      pt.2 ≠ 0 ∧ now_ns > pt.2) ∧
    (∀ pt, (((q.queue_.drop idx).zip
        (q.timeout_timestamp_ns_.drop idx)).dropWhile
          (expiredPred now_ns)).head? = some pt →
      ¬ (pt.2 ≠ 0 ∧ now_ns > pt.2)) ∧
    (q.ApplyPolicy now_ns idx).2.2.2 =
        (if ((q.queue_.drop idx).zip
            (q.timeout_timestamp_ns_.drop idx)).dropWhile
              (expiredPred now_ns) ≠ [] then true
         else decide ((idx - (q.ApplyPolicy now_ns idx).1.queue_.length) <
            (q.ApplyPolicy now_ns idx).1.delayed_queue_.length)) := by
  have hdl : (q.queue_.drop idx).length =
      (q.timeout_timestamp_ns_.drop idx).length := by
    simp [hlen]
  unfold PolicyQueue.ApplyPolicy
  rw [applyPolicyLoop_eq now_ns q.timeout_action_ (q.queue_.drop idx)
    (q.timeout_timestamp_ns_.drop idx) hdl]
  refine ⟨rfl, rfl, rfl, rfl, rfl, rfl, ?_, ?_, ?_⟩
  · intro pt hmem
    have := List.mem_takeWhile_imp hmem
    simpa [expiredPred] using this
  · intro pt hhead
    have := head?_dropWhile_not (expiredPred now_ns) _ pt hhead
    simpa [expiredPred] using this
  · by_cases hrest : ((q.queue_.drop idx).zip
        (q.timeout_timestamp_ns_.drop idx)).dropWhile
          (expiredPred now_ns) = []
    · simp [hrest]
    · simp [hrest, List.isEmpty_iff]

/-- Witness for C3 (main-queue component) at a concrete queue with one
expired entry under REJECT. -/
theorem claim_C3_policy_apply_policy_witness :
    (PolicyQueue.ApplyPolicy
        ⟨0, 0, false, TimeoutAction.REJECT, [⟨0, 2, 10⟩, ⟨0, 3, 11⟩],
          [5, 0], [], []⟩ 6 0).1.queue_ =
      ([⟨0, 2, 10⟩, ⟨0, 3, 11⟩] : List Payload).take 0 ++
        (((([⟨0, 2, 10⟩, ⟨0, 3, 11⟩] : List Payload).drop 0).zip
          (([5, 0] : List Nat).drop 0)).dropWhile
            (expiredPred 6)).map Prod.fst :=
  (claim_C3_policy_apply_policy
    ⟨0, 0, false, TimeoutAction.REJECT, [⟨0, 2, 10⟩, ⟨0, 3, 11⟩], [5, 0],
      [], []⟩ 6 0 (by decide)).1

theorem mem_setLevel {l : List (Nat × PolicyQueue)} {k : Nat}
    {v : PolicyQueue} {e : Nat × PolicyQueue} (h : e ∈ setLevel l k v) :
    e = (k, v) ∨ e ∈ l := by
  induction l with
  | nil => simpa [setLevel] using h
  | cons a rest ih =>
      obtain ⟨k', w⟩ := a
      unfold setLevel at h
      by_cases h1 : k < k'
      · rw [if_pos h1] at h
        rcases List.mem_cons.mp h with rfl | h2
        · exact Or.inl rfl
        · exact Or.inr h2
      · rw [if_neg h1] at h
        by_cases h2 : k = k'
        · rw [if_pos h2] at h
          rcases List.mem_cons.mp h with rfl | h3
          · exact Or.inl rfl
          · exact Or.inr (List.mem_cons_of_mem _ h3)
        · rw [if_neg h2] at h
          rcases List.mem_cons.mp h with rfl | h3
          · exact Or.inr (List.mem_cons_self _ _)
          · rcases ih h3 with h4 | h4
            · exact Or.inl h4
            · exact Or.inr (List.mem_cons_of_mem _ h4)

theorem levelsSorted_setLevel {l : List (Nat × PolicyQueue)} {k : Nat}
    {v : PolicyQueue} (hs : LevelsSorted l) : LevelsSorted (setLevel l k v) := by
  induction l with
  | nil => simp [setLevel, LevelsSorted]
  | cons a rest ih =>
      obtain ⟨k', w⟩ := a
      rcases List.pairwise_cons.mp hs with ⟨hlt, hrest⟩
      unfold setLevel
      by_cases h1 : k < k'
      · rw [if_pos h1]
        refine List.pairwise_cons.mpr ⟨?_, hs⟩
        intro e he
        rcases List.mem_cons.mp he with rfl | h2
        · exact h1
        · exact Nat.lt_trans h1 (hlt e h2)
      · rw [if_neg h1]
        by_cases h2 : k = k'
        · rw [if_pos h2]
          subst h2
          exact List.pairwise_cons.mpr ⟨hlt, hrest⟩
        · rw [if_neg h2]
          refine List.pairwise_cons.mpr ⟨?_, ih hrest⟩
          intro e he
          rcases mem_setLevel he with rfl | h3
          · exact Nat.lt_of_le_of_ne (Nat.not_lt.mp h1)
              (fun hh => h2 hh.symm)
          · exact hlt e h3

theorem sumBy_setLevel_none (f : PolicyQueue → Nat)
    {l : List (Nat × PolicyQueue)} {k : Nat} (v : PolicyQueue)
    (hlk : lookupLevel l k = none) :
    ((setLevel l k v).map (fun e => f e.2)).sum =
      (l.map (fun e => f e.2)).sum + f v := by
  induction l with
  | nil => simp [setLevel]
  | cons a rest ih =>
      obtain ⟨k', w⟩ := a
      unfold lookupLevel at hlk
      by_cases h2 : k = k'
      · rw [if_pos h2] at hlk
        cases hlk
      · rw [if_neg h2] at hlk
        unfold setLevel
        by_cases h1 : k < k'
        · rw [if_pos h1]
          simp only [List.map_cons, List.sum_cons]
          omega
        · rw [if_neg h1, if_neg h2]
          simp only [List.map_cons, List.sum_cons, ih hlk]
          omega

theorem sumBy_setLevel_some (f : PolicyQueue → Nat)
    {l : List (Nat × PolicyQueue)} {k : Nat} {q0 : PolicyQueue}
    (v : PolicyQueue) (hs : LevelsSorted l)
    (hlk : lookupLevel l k = some q0) :
    ((setLevel l k v).map (fun e => f e.2)).sum + f q0 =
      (l.map (fun e => f e.2)).sum + f v := by
  induction l with
  | nil => simp [lookupLevel] at hlk
  | cons a rest ih =>
      obtain ⟨k', w⟩ := a
      rcases List.pairwise_cons.mp hs with ⟨hlt, hrest⟩
      unfold lookupLevel at hlk
      unfold setLevel
      by_cases h2 : k = k'
      · subst h2
        rw [if_pos rfl] at hlk
        injection hlk with hq
        subst hq
        rw [if_neg (Nat.lt_irrefl k), if_pos rfl]
        simp only [List.map_cons, List.sum_cons]
        omega
      · rw [if_neg h2] at hlk
        have hkgt : k' < k := hlt (k, q0) (lookupLevel_mem hlk)
        rw [if_neg (by omega), if_neg h2]
        simp only [List.map_cons, List.sum_cons]
        have := ih hrest hlk
        omega

theorem levelsSorted_of_keys_eq {l1 l2 : List (Nat × PolicyQueue)}
    (hk : l1.map Prod.fst = l2.map Prod.fst) (hs : LevelsSorted l1) :
    LevelsSorted l2 := by
  have h1 : List.Pairwise (fun a b => a < b) (l1.map Prod.fst) :=
    List.pairwise_map.mpr hs
  rw [hk] at h1
  exact List.pairwise_map.mp h1

theorem sumAdmitted_append (a b : List (Nat × PolicyQueue)) :
    sumAdmitted (a ++ b) = sumAdmitted a + sumAdmitted b := by
  simp [sumAdmitted]

theorem sumRejected_append (a b : List (Nat × PolicyQueue)) :
    sumRejected (a ++ b) = sumRejected a + sumRejected b := by
  simp [sumRejected]

theorem construct_goodState (dp : ModelQueuePolicy) (levels : Nat)
    (pmap : List (Nat × ModelQueuePolicy)) :
    GoodState ⟨PriorityQueue.construct dp levels pmap, 0, 0⟩ := by
  have hq : (PriorityQueue.construct dp levels pmap).queues_ =
      (if levels = 0 then [(0, PolicyQueue.ofPolicy dp)]
       else (List.range levels).map (fun i =>
        (i + 1,
          match pmap.lookup (i + 1) with
          | none => PolicyQueue.ofPolicy dp
          | some pol => PolicyQueue.ofPolicy pol))) := rfl
  have hempty : ∀ e ∈ (PriorityQueue.construct dp levels pmap).queues_,
      e.2.queue_ = [] ∧ e.2.delayed_queue_ = [] ∧ e.2.rejected_queue_ = [] := by
    intro e he
    rw [hq] at he
    by_cases h0 : levels = 0
    · rw [if_pos h0] at he
      simp at he
      subst he
      exact ⟨rfl, rfl, rfl⟩
    · rw [if_neg h0] at he
      obtain ⟨i, _, hei⟩ := List.mem_map.mp he
      subst hei
      cases pmap.lookup (i + 1) <;> exact ⟨rfl, rfl, rfl⟩
  refine ⟨?_, ?_, ?_⟩
  · show LevelsSorted (PriorityQueue.construct dp levels pmap).queues_
    rw [hq]
    by_cases h0 : levels = 0
    · simp [h0, LevelsSorted]
    · rw [if_neg h0]
      refine List.pairwise_map.mpr ?_
      have := List.pairwise_lt_range levels
      exact this.imp (fun {a b} hab => by omega)
  · show (0 : Nat) = sumAdmitted (PriorityQueue.construct dp levels pmap).queues_
    have : sumAdmitted (PriorityQueue.construct dp levels pmap).queues_ = 0 := by
      apply List.sum_eq_zero
      intro x hx
      obtain ⟨e, he, hex⟩ := List.mem_map.mp hx
      obtain ⟨h1, h2, _⟩ := hempty e he
      rw [← hex, h1, h2]
      rfl
    omega
  · show (0 : Nat) = sumAdmitted (PriorityQueue.construct dp levels pmap).queues_
      + 0 + sumRejected (PriorityQueue.construct dp levels pmap).queues_
    have ha : sumAdmitted (PriorityQueue.construct dp levels pmap).queues_ = 0 := by
      apply List.sum_eq_zero
      intro x hx
      obtain ⟨e, he, hex⟩ := List.mem_map.mp hx
      obtain ⟨h1, h2, _⟩ := hempty e he
      rw [← hex, h1, h2]
      rfl
    have hr : sumRejected (PriorityQueue.construct dp levels pmap).queues_ = 0 := by
      apply List.sum_eq_zero
      intro x hx
      obtain ⟨e, he, hex⟩ := List.mem_map.mp hx
      obtain ⟨_, _, h3⟩ := hempty e he
      rw [← hex, h3]
      rfl
    omega

theorem policy_enqueue_ok_shape (q : PolicyQueue) (now_ns : Nat) (p : Payload)
    (h : (q.Enqueue now_ns p).1.IsOk = true) :
    (q.Enqueue now_ns p).2.queue_.length = q.queue_.length + 1 ∧
    (q.Enqueue now_ns p).2.delayed_queue_ = q.delayed_queue_ ∧
    (q.Enqueue now_ns p).2.rejected_queue_ = q.rejected_queue_ := by
  unfold PolicyQueue.Enqueue at h ⊢
  split at h
  · simp [Status.IsOk] at h
  · rename_i hroom
    rw [if_neg hroom]
    simp

theorem policy_dequeue_shape (q : PolicyQueue) (h : q.Empty = false) :
    ∃ pr, q.Dequeue = some pr ∧
      pr.2.queue_.length + pr.2.delayed_queue_.length + 1 =
        q.queue_.length + q.delayed_queue_.length ∧
      pr.2.rejected_queue_ = q.rejected_queue_ := by
  unfold PolicyQueue.Dequeue
  cases hm : q.queue_ with
  | cons p rest =>
      refine ⟨_, rfl, ?_, rfl⟩
      dsimp only
      simp only [List.length_cons]
      omega
  | nil =>
      cases hd : q.delayed_queue_ with
      | nil =>
          exfalso
          simp [PolicyQueue.Empty, PolicyQueue.Size, hm, hd] at h
      | cons p rest =>
          refine ⟨_, rfl, ?_, rfl⟩
          dsimp only
          simp [hm]

theorem applyPolicyLoop_lengths (now_ns : Nat) (act : TimeoutAction)
    (ps : List Payload) :
    ∀ ts : List Nat,
      (applyPolicyLoop now_ns act ps ts).main.length +
        (applyPolicyLoop now_ns act ps ts).delayed.length +
        (applyPolicyLoop now_ns act ps ts).rejected.length = ps.length ∧
      (applyPolicyLoop now_ns act ps ts).rejected.length =
        (applyPolicyLoop now_ns act ps ts).rejected_count := by
  induction ps with
  | nil =>
      intro ts
      simp [applyPolicyLoop]
  | cons p ps' ih =>
      intro ts
      cases ts with
      | nil => simp [applyPolicyLoop]
      | cons t ts' =>
          unfold applyPolicyLoop
          by_cases hexp : t ≠ 0 ∧ now_ns > t
          · rw [if_pos hexp]
            obtain ⟨ih1, ih2⟩ := ih ts'
            cases act <;> simp <;> omega
          · rw [if_neg hexp]
            simp

theorem applyPolicy_sums (q : PolicyQueue) (now_ns idx : Nat) :
    (q.ApplyPolicy now_ns idx).1.queue_.length +
      (q.ApplyPolicy now_ns idx).1.delayed_queue_.length +
      (q.ApplyPolicy now_ns idx).2.1 =
      q.queue_.length + q.delayed_queue_.length ∧
    (q.ApplyPolicy now_ns idx).1.rejected_queue_.length =
      q.rejected_queue_.length + (q.ApplyPolicy now_ns idx).2.1 := by
  obtain ⟨h1, h2⟩ := applyPolicyLoop_lengths now_ns q.timeout_action_
    (q.queue_.drop idx) (q.timeout_timestamp_ns_.drop idx)
  unfold PolicyQueue.ApplyPolicy
  simp only [List.length_append, List.length_take, List.length_drop] at h1 ⊢
  have hmin : min idx q.queue_.length ≤ q.queue_.length := Nat.min_le_right _ _
  have hmin2 : min idx q.queue_.length + (q.queue_.length - idx) =
      q.queue_.length := by omega
  constructor
  · omega
  · omega

theorem dequeueFirst_sums (l : List (Nat × PolicyQueue)) :
    ∀ pr, dequeueFirst l = some pr →
      sumAdmitted pr.2 + 1 = sumAdmitted l ∧
      sumRejected pr.2 = sumRejected l ∧
      pr.2.map Prod.fst = l.map Prod.fst := by
  induction l with
  | nil =>
      intro pr h
      simp [dequeueFirst] at h
  | cons e rest ih =>
      obtain ⟨k, q⟩ := e
      intro pr h
      unfold dequeueFirst at h
      by_cases he : q.Empty = true
      · rw [if_pos he] at h
        cases hrec : dequeueFirst rest with
        | none =>
            rw [hrec] at h
            cases h
        | some pr' =>
            obtain ⟨p', rest'⟩ := pr'
            rw [hrec] at h
            simp at h
            obtain ⟨ih1, ih2, ih3⟩ := ih (p', rest') hrec
            subst h
            dsimp only
            simp only [sumAdmitted, sumRejected, List.map_cons,
              List.sum_cons] at ih1 ih2 ⊢
            refine ⟨by omega, by omega, by simp [ih3]⟩
      · rw [if_neg he] at h
        obtain ⟨pr0, hdq, hlen, hrej⟩ :=
          policy_dequeue_shape q (Bool.eq_false_iff.mpr he)
        rw [hdq] at h
        obtain ⟨p0, q0⟩ := pr0
        simp at h
        subst h
        dsimp only at hlen hrej ⊢
        simp only [sumAdmitted, sumRejected, List.map_cons, List.sum_cons]
        refine ⟨by omega, by rw [hrej], by simp⟩

theorem applyPolicyAtCursorLoop_sums (now_ns size pending : Nat)
    (l : List (Nat × PolicyQueue)) :
    ∀ qidx rc rbs : Nat,
      ∃ d,
        (applyPolicyAtCursorLoop now_ns size pending l qidx rc rbs).2.2.2.1 =
          rc + d ∧
        sumAdmitted
            (applyPolicyAtCursorLoop now_ns size pending l qidx rc rbs).1 + d =
          sumAdmitted l ∧
        sumRejected
            (applyPolicyAtCursorLoop now_ns size pending l qidx rc rbs).1 =
          sumRejected l + d ∧
        (applyPolicyAtCursorLoop now_ns size pending l qidx rc rbs).1.map
            Prod.fst = l.map Prod.fst := by
  induction l with
  | nil =>
      intro qidx rc rbs
      exact ⟨0, by simp [applyPolicyAtCursorLoop]⟩
  | cons e rest ih =>
      obtain ⟨k, q⟩ := e
      intro qidx rc rbs
      obtain ⟨ha1, ha2⟩ := applyPolicy_sums q now_ns qidx
      simp only [applyPolicyAtCursorLoop]
      by_cases hc : ¬ (q.ApplyPolicy now_ns qidx).2.2.2 = true ∧
          size > pending + (rc + (q.ApplyPolicy now_ns qidx).2.1)
      · rw [if_pos hc]
        obtain ⟨d', hd1, hd2, hd3, hd4⟩ := ih 0
          (rc + (q.ApplyPolicy now_ns qidx).2.1)
          (rbs + (q.ApplyPolicy now_ns qidx).2.2.1)
        refine ⟨(q.ApplyPolicy now_ns qidx).2.1 + d', ?_, ?_, ?_, ?_⟩
        · simp only [hd1]
          omega
        · simp only [sumAdmitted, List.map_cons, List.sum_cons] at hd2 ⊢
          omega
        · simp only [sumRejected, List.map_cons, List.sum_cons] at hd3 ⊢
          omega
        · simp [hd4]
      · rw [if_neg hc]
        refine ⟨(q.ApplyPolicy now_ns qidx).2.1, rfl, ?_, ?_, ?_⟩
        · simp only [sumAdmitted, List.map_cons, List.sum_cons]
          omega
        · simp only [sumRejected, List.map_cons, List.sum_cons]
          omega
        · simp

theorem goodState_enqueue (s : RunState) (now_ns L : Nat) (p : Payload)
    (h : GoodState s) : GoodState (runOp s (SchedOp.enqueue now_ns L p)) := by
  obtain ⟨hsort, hsize, henq⟩ := h
  simp only [runOp]
  by_cases hok : ((s.pq.levelQueue L).Enqueue now_ns p).1.IsOk = true
  · have hfst : (s.pq.Enqueue now_ns L p).1.IsOk = true := by
      rw [priorityQueue_enqueue_fst]
      exact hok
    simp only [hfst, if_true]
    rw [priorityQueue_enqueue_snd_ok s.pq now_ns L p hok]
    obtain ⟨hq1, hq2, hq3⟩ := policy_enqueue_ok_shape (s.pq.levelQueue L)
      now_ns p hok
    refine ⟨levelsSorted_setLevel hsort, ?_, ?_⟩
    all_goals {
      cases hlk : lookupLevel s.pq.queues_ L with
      | none =>
          have hadm := sumBy_setLevel_none
            (fun q => q.queue_.length + q.delayed_queue_.length)
            ((s.pq.levelQueue L).Enqueue now_ns p).2 hlk
          have hrej := sumBy_setLevel_none
            (fun q => q.rejected_queue_.length)
            ((s.pq.levelQueue L).Enqueue now_ns p).2 hlk
          have hlq : s.pq.levelQueue L =
              PolicyQueue.ofPolicy ModelQueuePolicy.defaultPolicy := by
            simp [PriorityQueue.levelQueue, hlk]
          have hb1 : (s.pq.levelQueue L).queue_.length = 0 := by
            rw [hlq]
            rfl
          have hb2 : (s.pq.levelQueue L).delayed_queue_.length = 0 := by
            rw [hlq]
            rfl
          have hb3 : (s.pq.levelQueue L).rejected_queue_.length = 0 := by
            rw [hlq]
            rfl
          have hd2 := congrArg List.length hq2
          have hd3 := congrArg List.length hq3
          simp only [sumAdmitted, sumRejected] at hsize henq ⊢
          dsimp only at hadm hrej
          omega
      | some q0 =>
          have hadm := sumBy_setLevel_some
            (fun q => q.queue_.length + q.delayed_queue_.length)
            ((s.pq.levelQueue L).Enqueue now_ns p).2 hsort hlk
          have hrej := sumBy_setLevel_some
            (fun q => q.rejected_queue_.length)
            ((s.pq.levelQueue L).Enqueue now_ns p).2 hsort hlk
          have hlq : s.pq.levelQueue L = q0 := by
            simp [PriorityQueue.levelQueue, hlk]
          have hb1 : (s.pq.levelQueue L).queue_.length = q0.queue_.length := by
            rw [hlq]
          have hb2 : (s.pq.levelQueue L).delayed_queue_.length =
              q0.delayed_queue_.length := by
            rw [hlq]
          have hb3 : (s.pq.levelQueue L).rejected_queue_.length =
              q0.rejected_queue_.length := by
            rw [hlq]
          have hd2 := congrArg List.length hq2
          have hd3 := congrArg List.length hq3
          simp only [sumAdmitted, sumRejected] at hsize henq ⊢
          dsimp only at hadm hrej
          omega
    }
  · have hok' : ((s.pq.levelQueue L).Enqueue now_ns p).1.IsOk = false :=
      Bool.eq_false_iff.mpr hok
    have hfst : (s.pq.Enqueue now_ns L p).1.IsOk = false := by
      rw [priorityQueue_enqueue_fst]
      exact hok'
    simp only [hfst, if_false, Bool.false_eq_true]
    rw [priorityQueue_enqueue_snd_fail s.pq now_ns L p hok']
    cases hlk : lookupLevel s.pq.queues_ L with
    | none =>
        exfalso
        have hlq : s.pq.levelQueue L =
            PolicyQueue.ofPolicy ModelQueuePolicy.defaultPolicy := by
          simp [PriorityQueue.levelQueue, hlk]
        rw [hlq, defaultPolicy_enqueue_ok now_ns p] at hok'
        cases hok'
    | some q0 =>
        have hlq : s.pq.levelQueue L = q0 := by
          simp [PriorityQueue.levelQueue, hlk]
        rw [hlq] at hok' ⊢
        rw [policyQueue_enqueue_fail_eq hok', setLevel_lookup_self hsort hlk]
        exact ⟨hsort, hsize, henq⟩

theorem goodState_dequeue (s : RunState) (h : GoodState s) :
    GoodState (runOp s SchedOp.dequeue) := by
  obtain ⟨hsort, hsize, henq⟩ := h
  simp only [runOp]
  cases hdq : s.pq.Dequeue with
  | none => exact ⟨hsort, hsize, henq⟩
  | some pr =>
      unfold PriorityQueue.Dequeue at hdq
      cases hdf : dequeueFirst s.pq.queues_ with
      | none =>
          rw [hdf] at hdq
          cases hdq
      | some pr' =>
          obtain ⟨p', qs'⟩ := pr'
          rw [hdf] at hdq
          simp at hdq
          obtain ⟨ih1, ih2, ih3⟩ := dequeueFirst_sums s.pq.queues_ (p', qs') hdf
          dsimp only at ih1 ih2 ih3
          subst hdq
          refine ⟨levelsSorted_of_keys_eq ih3.symm hsort, ?_, ?_⟩
          · dsimp only
            omega
          · dsimp only
            omega

theorem goodState_applyPolicy (s : RunState) (now_ns : Nat)
    (h : GoodState s) :
    GoodState (runOp s (SchedOp.applyPolicyAtCursor now_ns)) := by
  obtain ⟨hsort, hsize, henq⟩ := h
  simp only [runOp]
  unfold PriorityQueue.ApplyPolicyAtCursor
  cases hcl : s.pq.pending_cursor_.curr_level_ with
  | none => exact ⟨hsort, hsize, henq⟩
  | some k =>
      obtain ⟨d, hd1, hd2, hd3, hd4⟩ := applyPolicyAtCursorLoop_sums now_ns
        s.pq.size_ s.pq.pending_cursor_.pending_batch_count_
        (s.pq.queues_.dropWhile (fun e => e.1 < k))
        s.pq.pending_cursor_.queue_idx_ 0 0
      have hsplit : s.pq.queues_.takeWhile (fun e => decide (e.1 < k)) ++
          s.pq.queues_.dropWhile (fun e => decide (e.1 < k)) = s.pq.queues_ :=
        List.takeWhile_append_dropWhile (fun e => decide (e.1 < k)) s.pq.queues_
      dsimp only
      have hadm := congrArg sumAdmitted hsplit
      have hrej := congrArg sumRejected hsplit
      rw [sumAdmitted_append] at hadm
      rw [sumRejected_append] at hrej
      refine ⟨?_, ?_, ?_⟩
      · apply levelsSorted_of_keys_eq _ hsort
        rw [← hsplit]
        simp [hd4]
        rw [← List.map_append, hsplit]
      · dsimp only
        rw [sumAdmitted_append]
        omega
      · dsimp only
        rw [sumAdmitted_append, sumRejected_append]
        omega

theorem runOp_goodState (s : RunState) (op : SchedOp) (h : GoodState s) :
    GoodState (runOp s op) := by
  cases op with
  | enqueue now_ns L p => exact goodState_enqueue s now_ns L p h
  | dequeue => exact goodState_dequeue s h
  | applyPolicyAtCursor now_ns => exact goodState_applyPolicy s now_ns h

theorem runOps_goodState (ops : List SchedOp) :
    ∀ s, GoodState s → GoodState (runOps s ops) := by
  induction ops with
  | nil =>
      intro s h
      exact h
  | cons op rest ih =>
      intro s h
      exact ih _ (runOp_goodState s op h)

/-- C8: count conservation — for any sequence of enqueues, dequeues and
`ApplyPolicyAtCursor` calls starting from a freshly constructed (empty)
`PriorityQueue`, `size_` equals the number of successful enqueues minus the
number of dequeues minus the number of payloads moved into rejected FIFOs by
policy application (which, starting from empty, is the total length of the
rejected FIFOs). -/
theorem claim_C8_count_conservation (dp : ModelQueuePolicy) (levels : Nat)
    (pmap : List (Nat × ModelQueuePolicy)) (ops : List SchedOp) :
    ((runOps ⟨PriorityQueue.construct dp levels pmap, 0, 0⟩ ops).pq.size_ : Int) =
      ((runOps ⟨PriorityQueue.construct dp levels pmap, 0, 0⟩
          ops).total_enqueued : Int) -
      ((runOps ⟨PriorityQueue.construct dp levels pmap, 0, 0⟩
          ops).total_dequeued : Int) -
      (sumRejected (runOps ⟨PriorityQueue.construct dp levels pmap, 0, 0⟩
          ops).pq.queues_ : Int) := by
  obtain ⟨_, hsize, henq⟩ :=
    runOps_goodState ops _ (construct_goodState dp levels pmap)
  omega

end Triton
